import Mathlib

/-!
Verification of the Monte Carlo / Black-Scholes option pricing script
(src/MCBSOptions.py) against its specification.

The script is embedded shallowly over the real numbers:
- the stream of standard-normal draws produced by np.random.normal() is an
  explicit parameter Z : ℕ → ℝ, consumed in program order (trial i, step j
  consumes draw number time_steps * i + j);
- scipy.stats.norm.cdf is the standard normal cumulative distribution
  function, defined here as a Gaussian integral;
- Python's plain-number division raises ZeroDivisionError on a zero
  divisor; the two reachable zero divisions of the script — dt =
  T/time_steps at line 15, and S0/K inside np.log at lines 43/49 (reached
  from lines 57-58) when K = 0 — are modelled by Option-valued stages.
  Every other degenerate operation (np.log of a non-positive argument,
  np.sqrt of a negative, division by a numpy float zero) goes through numpy
  floating point, which returns nan or inf with a warning and never raises.
-/

open MeasureTheory

/-- scipy.stats.norm.cdf: the standard normal cumulative distribution
function `Φ x = (∫ t ≤ x, exp (-t²/2)) / √(2π)`. -/
noncomputable def normCdf (x : ℝ) : ℝ :=
  (∫ t in Set.Iic x, Real.exp (-(1 / 2) * t ^ 2)) / Real.sqrt (2 * Real.pi)

/-- One GBM update of the running price (line 30 of the source):
`S * exp((r - 0.5*sigma**2)*dt + sigma*sqrt(dt)*Z)`. -/
noncomputable def gbmStep (r sigma dt S Z : ℝ) : ℝ :=
  S * Real.exp ((r - 0.5 * sigma ^ 2) * dt + sigma * Real.sqrt dt * Z)

/-- The inner loop of the simulation (lines 26-31): starting from the list
`[S]`, each step appends the updated price; the list of draws drives the
recursion. -/
noncomputable def simPath (r sigma dt : ℝ) : ℝ → List ℝ → List ℝ
  | S, [] => [S]
  | S, Z :: Zs => S :: simPath r sigma dt (gbmStep r sigma dt S Z) Zs

/-- The value of the running variable `S` after the inner loop (used by the
payoff computation at lines 35-36). -/
noncomputable def terminalS (r sigma dt S0 : ℝ) (Zs : List ℝ) : ℝ :=
  Zs.foldl (fun S Z => gbmStep r sigma dt S Z) S0

/-- The draws consumed by trial `i`: draw number `time_steps * i + j` for
each step `j`, in program order. -/
def trialDraws (Z : ℕ → ℝ) (time_steps i : ℕ) : List ℝ :=
  (List.range time_steps).map fun j => Z (time_steps * i + j)

/-- `simulated_paths` (lines 20-39): one path per trial, with
`dt = T / time_steps`. -/
noncomputable def simulated_paths (S0 r sigma T : ℝ) (time_steps num_simulations : ℕ)
    (Z : ℕ → ℝ) : List (List ℝ) :=
  (List.range num_simulations).map fun i =>
    simPath r sigma (T / time_steps) S0 (trialDraws Z time_steps i)

/-- `call_payoffs` (line 35): `max(S - K, 0)` for each trial's final `S`. -/
noncomputable def call_payoffs (S0 K T r sigma : ℝ) (time_steps num_simulations : ℕ)
    (Z : ℕ → ℝ) : List ℝ :=
  (List.range num_simulations).map fun i =>
    max (terminalS r sigma (T / time_steps) S0 (trialDraws Z time_steps i) - K) 0

/-- `put_payoffs` (line 36): `max(K - S, 0)` for each trial's final `S`. -/
noncomputable def put_payoffs (S0 K T r sigma : ℝ) (time_steps num_simulations : ℕ)
    (Z : ℕ → ℝ) : List ℝ :=
  (List.range num_simulations).map fun i =>
    max (K - terminalS r sigma (T / time_steps) S0 (trialDraws Z time_steps i)) 0

/-- np.mean of a list: sum divided by length. -/
noncomputable def npMean (xs : List ℝ) : ℝ := xs.sum / xs.length

/-- `mc_call_price` (line 55): `np.exp(-r*T) * np.mean(call_payoffs)`. -/
noncomputable def mc_call_price (S0 K T r sigma : ℝ) (time_steps num_simulations : ℕ)
    (Z : ℕ → ℝ) : ℝ :=
  Real.exp (-r * T) * npMean (call_payoffs S0 K T r sigma time_steps num_simulations Z)

/-- `mc_put_price` (line 56): `np.exp(-r*T) * np.mean(put_payoffs)`. -/
noncomputable def mc_put_price (S0 K T r sigma : ℝ) (time_steps num_simulations : ℕ)
    (Z : ℕ → ℝ) : ℝ :=
  Real.exp (-r * T) * npMean (put_payoffs S0 K T r sigma time_steps num_simulations Z)

/-- `black_scholes_call` (lines 42-46 of the source). -/
noncomputable def black_scholes_call (S0 K T r sigma : ℝ) : ℝ :=
  let d1 := (Real.log (S0 / K) + (r + 0.5 * sigma ^ 2) * T) / (sigma * Real.sqrt T)
  let d2 := d1 - sigma * Real.sqrt T
  S0 * normCdf d1 - K * Real.exp (-r * T) * normCdf d2

/-- `black_scholes_put` (lines 48-52 of the source). -/
noncomputable def black_scholes_put (S0 K T r sigma : ℝ) : ℝ :=
  let d1 := (Real.log (S0 / K) + (r + 0.5 * sigma ^ 2) * T) / (sigma * Real.sqrt T)
  let d2 := d1 - sigma * Real.sqrt T
  K * Real.exp (-r * T) * normCdf (-d2) - S0 * normCdf (-d1)

/-- The module-level computation of the script through line 56: `dt`, the
simulation loop and the two Monte Carlo prices.  The first statement is
`dt = T/time_steps` (line 15); `T` and `time_steps` are plain Python
numbers, so a zero `time_steps` raises `ZeroDivisionError` there, before
the simulation loop runs, which is modelled by `none`.  For
`time_steps ≠ 0` no operation up to line 56 can raise: the script performs
no validation of any parameter and always produces the paths and the two
Monte Carlo prices. -/
noncomputable def simulationStage (S0 K T r sigma : ℝ) (time_steps num_simulations : ℕ)
    (Z : ℕ → ℝ) : Option (List (List ℝ) × ℝ × ℝ) :=
  if time_steps = 0 then none
  else some (simulated_paths S0 r sigma T time_steps num_simulations Z,
             mc_call_price S0 K T r sigma time_steps num_simulations Z,
             mc_put_price S0 K T r sigma time_steps num_simulations Z)

/-- The Black-Scholes evaluation of lines 57-58, which calls
`black_scholes_call`/`black_scholes_put` (lines 42-52).  Both start with
`np.log(S0/K)` (lines 43/49), and `S0/K` is plain Python division, so
`K = 0` raises `ZeroDivisionError` there, modelled by `none`.  Every other
operation in the two functions is numpy floating-point arithmetic (np.log,
np.sqrt, np.float64 division), which yields nan/inf rather than raising,
so no other parameter value can abort this stage. -/
noncomputable def blackScholesStage (S0 K T r sigma : ℝ) : Option (ℝ × ℝ) :=
  if K = 0 then none
  else some (black_scholes_call S0 K T r sigma, black_scholes_put S0 K T r sigma)

/-- The full module-level run of the script through line 58: the
simulation stage (lines 14-56) followed by the Black-Scholes stage (lines
57-58).  A `ZeroDivisionError` in either stage aborts the run; the
simulation stage runs — and consumes all its draws — before the
Black-Scholes stage is reached. -/
noncomputable def runScript (S0 K T r sigma : ℝ) (time_steps num_simulations : ℕ)
    (Z : ℕ → ℝ) : Option (List (List ℝ) × ℝ × ℝ × ℝ × ℝ) :=
  (simulationStage S0 K T r sigma time_steps num_simulations Z).bind fun sim =>
    (blackScholesStage S0 K T r sigma).map fun bs =>
      (sim.1, sim.2.1, sim.2.2, bs.1, bs.2)

/-- Closed-form d1 exactly as written in the spec (section 4.2). -/
noncomputable def spec_d1 (S0 K T r sigma : ℝ) : ℝ :=
  (Real.log (S0 / K) + (r + 0.5 * sigma ^ 2) * T) / (sigma * Real.sqrt T)

/-- Closed-form d2 exactly as written in the spec (section 4.2). -/
noncomputable def spec_d2 (S0 K T r sigma : ℝ) : ℝ :=
  spec_d1 S0 K T r sigma - sigma * Real.sqrt T

/-- Closed-form call value exactly as written in the spec (section 4.2):
`S0*Φ(d1) - K*exp(-r*T)*Φ(d2)`. -/
noncomputable def spec_bs_call (S0 K T r sigma : ℝ) : ℝ :=
  S0 * normCdf (spec_d1 S0 K T r sigma) -
    K * Real.exp (-r * T) * normCdf (spec_d2 S0 K T r sigma)

/-- Closed-form put value exactly as written in the spec (section 4.2):
`K*exp(-r*T)*Φ(-d2) - S0*Φ(-d1)`. -/
noncomputable def spec_bs_put (S0 K T r sigma : ℝ) : ℝ :=
  K * Real.exp (-r * T) * normCdf (-spec_d2 S0 K T r sigma) -
    S0 * normCdf (-spec_d1 S0 K T r sigma)

/-- A GBM update keeps the price positive. -/
theorem gbmStep_pos (r sigma dt S Z : ℝ) (hS : 0 < S) : 0 < gbmStep r sigma dt S Z :=
  mul_pos hS (Real.exp_pos _)

/-- A simulated path has one element more than the number of draws. -/
theorem simPath_length (r sigma dt : ℝ) (Zs : List ℝ) :
    ∀ S : ℝ, (simPath r sigma dt S Zs).length = Zs.length + 1 := by
  induction Zs with
  | nil => intro S; rfl
  | cons Z Zs ih => intro S; simp [simPath, ih]

/-- A simulated path starts with the initial price. -/
theorem simPath_head (r sigma dt S : ℝ) (Zs : List ℝ) :
    (simPath r sigma dt S Zs).head? = some S := by
  cases Zs <;> rfl

/-- The last element of a simulated path is the final value of the running
variable `S`. -/
theorem simPath_getLastD (r sigma dt : ℝ) (Zs : List ℝ) :
    ∀ S d : ℝ, (simPath r sigma dt S Zs).getLastD d = terminalS r sigma dt S Zs := by
  induction Zs with
  | nil => intro S d; rfl
  | cons Z Zs ih =>
      intro S d
      show (S :: simPath r sigma dt (gbmStep r sigma dt S Z) Zs).getLastD d = _
      rw [List.getLastD_cons]
      simpa [terminalS] using ih (gbmStep r sigma dt S Z) S

/-- Every element of a simulated path with positive initial price is
positive. -/
theorem simPath_pos (r sigma dt : ℝ) (Zs : List ℝ) :
    ∀ S : ℝ, 0 < S → ∀ x ∈ simPath r sigma dt S Zs, 0 < x := by
  induction Zs with
  | nil =>
      intro S hS x hx
      simp only [simPath, List.mem_singleton] at hx
      simpa [hx]
  | cons Z Zs ih =>
      intro S hS x hx
      simp only [simPath, List.mem_cons] at hx
      rcases hx with h | h
      · simpa [h]
      · exact ih _ (gbmStep_pos r sigma dt S Z hS) x h

/-- Element 0 of a simulated path is the initial price. -/
theorem simPath_getD_zero (r sigma dt S d : ℝ) (Zs : List ℝ) :
    (simPath r sigma dt S Zs).getD 0 d = S := by
  cases Zs <;> rfl

/-- One-step recurrence of a simulated path: element `i+1` is the GBM update
of element `i` with the i-th draw. -/
theorem simPath_getD_succ (r sigma dt : ℝ) (Zs : List ℝ) :
    ∀ (S : ℝ) (i : ℕ), i < Zs.length →
      (simPath r sigma dt S Zs).getD (i + 1) 0
        = gbmStep r sigma dt ((simPath r sigma dt S Zs).getD i 0) (Zs.getD i 0) := by
  induction Zs with
  | nil => intro S i hi; simp at hi
  | cons Z Zs ih =>
      intro S i hi
      cases i with
      | zero => cases Zs <;> rfl
      | succ i =>
          have hi' : i < Zs.length := by simpa using hi
          simp only [simPath, List.getD_cons_succ]
          exact ih _ i hi'

/-- The mean of a list of non-negative reals is non-negative. -/
theorem npMean_nonneg (xs : List ℝ) (h : ∀ x ∈ xs, 0 ≤ x) : 0 ≤ npMean xs :=
  div_nonneg (List.sum_nonneg h) (Nat.cast_nonneg _)

/-- Sum of a pointwise difference of two maps. -/
theorem list_sum_map_sub {α : Type} (l : List α) (f g : α → ℝ) :
    (l.map fun x => f x - g x).sum = (l.map f).sum - (l.map g).sum := by
  induction l with
  | nil => simp
  | cons a l ih => simp only [List.map_cons, List.sum_cons, ih]; ring

/-- Sum of a constant map. -/
theorem list_sum_map_const {α : Type} (l : List α) (c : ℝ) :
    (l.map fun _ => c).sum = l.length * c := by
  induction l with
  | nil => simp
  | cons a l ih => simp only [List.map_cons, List.sum_cons, List.length_cons, ih]; push_cast; ring

/-- Pointwise identity behind Monte Carlo put-call parity:
`max(a-K,0) - max(K-a,0) = a - K`. -/
theorem max_sub_max_eq (a K : ℝ) : max (a - K) 0 - max (K - a) 0 = a - K := by
  rcases le_total a K with h | h
  · rw [max_eq_right (by linarith : a - K ≤ 0), max_eq_left (by linarith : (0:ℝ) ≤ K - a)]
    ring
  · rw [max_eq_left (by linarith : (0:ℝ) ≤ a - K), max_eq_right (by linarith : K - a ≤ 0)]
    ring

/-- The standard Gaussian density is integrable. -/
theorem gaussianIntegrable : Integrable fun t : ℝ => Real.exp (-(1 / 2) * t ^ 2) :=
  integrable_exp_neg_mul_sq (by norm_num)

/-- Total mass of the unnormalised standard Gaussian. -/
theorem gaussian_total :
    (∫ t : ℝ, Real.exp (-(1 / 2) * t ^ 2)) = Real.sqrt (2 * Real.pi) := by
  rw [integral_gaussian]
  have h : Real.pi / (1 / 2) = 2 * Real.pi := by ring
  rw [h]

/-- Reflection of the lower Gaussian tail onto the upper tail. -/
theorem gaussian_Iic_neg (x : ℝ) :
    (∫ t in Set.Iic (-x), Real.exp (-(1 / 2) * t ^ 2))
      = ∫ t in Set.Ioi x, Real.exp (-(1 / 2) * t ^ 2) := by
  have h := integral_comp_neg_Iic (-x) (fun t => Real.exp (-(1 / 2) * t ^ 2))
  simp only [neg_neg] at h
  rw [← h]
  congr 1
  funext t
  rw [neg_sq]

/-- Splitting the Gaussian integral at a point. -/
theorem gaussian_split (x : ℝ) :
    (∫ t in Set.Iic x, Real.exp (-(1 / 2) * t ^ 2))
      + (∫ t in Set.Ioi x, Real.exp (-(1 / 2) * t ^ 2))
      = ∫ t : ℝ, Real.exp (-(1 / 2) * t ^ 2) := by
  have h := MeasureTheory.integral_add_compl (measurableSet_Iic (a := x)) gaussianIntegrable
  simpa [Set.compl_Iic] using h

/-- Symmetry of the standard normal CDF: `Φ x + Φ (-x) = 1`. -/
theorem normCdf_add_normCdf_neg (x : ℝ) : normCdf x + normCdf (-x) = 1 := by
  unfold normCdf
  rw [div_add_div_same, gaussian_Iic_neg, gaussian_split, gaussian_total]
  exact div_self (ne_of_gt (Real.sqrt_pos.mpr (by positivity)))

/-- Unfolding of the source call formula through its intermediate d1/d2. -/
theorem black_scholes_call_eq (S0 K T r sigma : ℝ) :
    black_scholes_call S0 K T r sigma
      = S0 * normCdf (spec_d1 S0 K T r sigma)
        - K * Real.exp (-r * T) * normCdf (spec_d2 S0 K T r sigma) := rfl

/-- Unfolding of the source put formula through its intermediate d1/d2. -/
theorem black_scholes_put_eq (S0 K T r sigma : ℝ) :
    black_scholes_put S0 K T r sigma
      = K * Real.exp (-r * T) * normCdf (-spec_d2 S0 K T r sigma)
        - S0 * normCdf (-spec_d1 S0 K T r sigma) := rfl

/-- C2: for S0, K, T, sigma > 0 and real r, the Black-Scholes evaluator
returns exactly the closed-form values of the spec, with
d1 = (ln(S0/K) + (r + 0.5*sigma^2)*T)/(sigma*sqrt(T)), d2 = d1 - sigma*sqrt(T),
call = S0*Φ(d1) - K*exp(-r*T)*Φ(d2) and put = K*exp(-r*T)*Φ(-d2) - S0*Φ(-d1);
it is a pure function of its five arguments (embedded as a function with no
other inputs), with no randomness and no state. -/
theorem bs_eval_matches_closed_form (S0 K T r sigma : ℝ)
    (hS0 : 0 < S0) (hK : 0 < K) (hT : 0 < T) (hsigma : 0 < sigma) :
    black_scholes_call S0 K T r sigma = spec_bs_call S0 K T r sigma ∧
    black_scholes_put S0 K T r sigma = spec_bs_put S0 K T r sigma :=
  ⟨rfl, rfl⟩

/-- Witness for C2 at S0=100, K=105, T=1, r=0.05, sigma=0.2. -/
theorem bs_eval_matches_closed_form_witness :
    0 < (100 : ℝ) ∧ 0 < (105 : ℝ) ∧ 0 < (1 : ℝ) ∧ 0 < (0.2 : ℝ) ∧
      (black_scholes_call 100 105 1 0.05 0.2 = spec_bs_call 100 105 1 0.05 0.2 ∧
        black_scholes_put 100 105 1 0.05 0.2 = spec_bs_put 100 105 1 0.05 0.2) :=
  ⟨by norm_num, by norm_num, by norm_num, by norm_num,
    bs_eval_matches_closed_form 100 105 1 0.05 0.2
      (by norm_num) (by norm_num) (by norm_num) (by norm_num)⟩

/-- C5: put-call parity of the analytical evaluators, over exact real
arithmetic: `black_scholes_call - black_scholes_put = S0 - K*exp(-r*T)` for
all S0, K, T, sigma > 0 and real r. -/
theorem bs_put_call_parity (S0 K T r sigma : ℝ)
    (hS0 : 0 < S0) (hK : 0 < K) (hT : 0 < T) (hsigma : 0 < sigma) :
    black_scholes_call S0 K T r sigma - black_scholes_put S0 K T r sigma
      = S0 - K * Real.exp (-r * T) := by
  rw [black_scholes_call_eq, black_scholes_put_eq]
  have h1 := normCdf_add_normCdf_neg (spec_d1 S0 K T r sigma)
  have h2 := normCdf_add_normCdf_neg (spec_d2 S0 K T r sigma)
  linear_combination S0 * h1 - K * Real.exp (-r * T) * h2

/-- Witness for C5 at S0=100, K=105, T=1, r=0.05, sigma=0.2. -/
theorem bs_put_call_parity_witness :
    0 < (100 : ℝ) ∧ 0 < (105 : ℝ) ∧ 0 < (1 : ℝ) ∧ 0 < (0.2 : ℝ) ∧
      black_scholes_call 100 105 1 0.05 0.2 - black_scholes_put 100 105 1 0.05 0.2
        = 100 - 105 * Real.exp (-0.05 * 1) :=
  ⟨by norm_num, by norm_num, by norm_num, by norm_num,
    bs_put_call_parity 100 105 1 0.05 0.2
      (by norm_num) (by norm_num) (by norm_num) (by norm_num)⟩

/-- C1: for every draw stream and parameter values, the orchestrator's Monte
Carlo prices are exactly the discounted sample means of the per-path
payoffs: `mc_call_price = exp(-r*T) * mean(max(S_T - K, 0))` and
`mc_put_price = exp(-r*T) * mean(max(K - S_T, 0))`, where `S_T` is each
simulated path's final price. -/
theorem mc_prices_are_discounted_mean_payoffs (S0 K T r sigma : ℝ)
    (time_steps num_simulations : ℕ) (Z : ℕ → ℝ) :
    mc_call_price S0 K T r sigma time_steps num_simulations Z
      = Real.exp (-r * T) *
          npMean ((simulated_paths S0 r sigma T time_steps num_simulations Z).map
            fun p => max (p.getLastD 0 - K) 0) ∧
    mc_put_price S0 K T r sigma time_steps num_simulations Z
      = Real.exp (-r * T) *
          npMean ((simulated_paths S0 r sigma T time_steps num_simulations Z).map
            fun p => max (K - p.getLastD 0) 0) := by
  constructor
  · unfold mc_call_price call_payoffs simulated_paths
    rw [List.map_map]
    congr 2
    apply List.map_congr_left
    intro i hi
    simp only [Function.comp_apply]
    rw [simPath_getLastD]
  · unfold mc_put_price put_payoffs simulated_paths
    rw [List.map_map]
    congr 2
    apply List.map_congr_left
    intro i hi
    simp only [Function.comp_apply]
    rw [simPath_getLastD]

/-- C3: for S0 > 0, time_steps ≥ 1 and num_simulations ≥ 1, the simulator
produces exactly num_simulations paths, and every path has length
time_steps + 1, first element exactly S0 and only positive elements. -/
theorem simulated_paths_wellformed (S0 r sigma T : ℝ) (time_steps num_simulations : ℕ)
    (Z : ℕ → ℝ) (hS0 : 0 < S0) (hts : 1 ≤ time_steps) (hN : 1 ≤ num_simulations) :
    (simulated_paths S0 r sigma T time_steps num_simulations Z).length = num_simulations ∧
    ∀ p ∈ simulated_paths S0 r sigma T time_steps num_simulations Z,
      p.length = time_steps + 1 ∧ p.head? = some S0 ∧ ∀ x ∈ p, 0 < x := by
  refine ⟨by simp [simulated_paths], ?_⟩
  intro p hp
  unfold simulated_paths at hp
  rw [List.mem_map] at hp
  obtain ⟨i, hi, rfl⟩ := hp
  refine ⟨?_, simPath_head _ _ _ _ _, simPath_pos _ _ _ _ _ hS0⟩
  rw [simPath_length]
  simp [trialDraws]

/-- Witness for C3 at S0=100, r=0.05, sigma=0.2, T=1, one step, one trial,
all draws zero. -/
theorem simulated_paths_wellformed_witness :
    0 < (100 : ℝ) ∧ 1 ≤ 1 ∧ 1 ≤ 1 ∧
      ((simulated_paths 100 0.05 0.2 1 1 1 fun _ => 0).length = 1 ∧
        ∀ p ∈ simulated_paths 100 0.05 0.2 1 1 1 fun _ => 0,
          p.length = 1 + 1 ∧ p.head? = some 100 ∧ ∀ x ∈ p, 0 < x) :=
  ⟨by norm_num, le_refl 1, le_refl 1,
    simulated_paths_wellformed 100 0.05 0.2 1 1 1 (fun _ => 0)
      (by norm_num) (le_refl 1) (le_refl 1)⟩

/-- C4: each simulation step multiplies the running price by
`exp((r - 0.5*sigma^2)*dt + sigma*sqrt(dt)*Z)` with `dt = T / time_steps`
and `Z` the draw consumed at that step: path element i+1 equals path
element i times that factor, for every trial n and step i. -/
theorem gbm_step_update (S0 r sigma T : ℝ) (time_steps num_simulations : ℕ) (Z : ℕ → ℝ)
    (n i : ℕ) (hn : n < num_simulations) (hi : i < time_steps) :
    ((simulated_paths S0 r sigma T time_steps num_simulations Z).getD n []).getD (i + 1) 0
      = ((simulated_paths S0 r sigma T time_steps num_simulations Z).getD n []).getD i 0 *
          Real.exp ((r - 0.5 * sigma ^ 2) * (T / time_steps)
            + sigma * Real.sqrt (T / time_steps) * Z (time_steps * n + i)) := by
  have hpath : (simulated_paths S0 r sigma T time_steps num_simulations Z).getD n []
      = simPath r sigma (T / time_steps) S0 (trialDraws Z time_steps n) := by
    unfold simulated_paths
    rw [List.getD_eq_getElem?_getD, List.getElem?_map, List.getElem?_range hn]
    rfl
  have hdraw : (trialDraws Z time_steps n).getD i 0 = Z (time_steps * n + i) := by
    unfold trialDraws
    rw [List.getD_eq_getElem?_getD, List.getElem?_map, List.getElem?_range hi]
    rfl
  have hlen : i < (trialDraws Z time_steps n).length := by simpa [trialDraws] using hi
  rw [hpath, simPath_getD_succ r sigma (T / time_steps) _ S0 i hlen, hdraw]
  rfl

/-- Witness for C4: one trial, one step, S0=100, r=0.05, sigma=0.2, T=1,
all draws zero. -/
theorem gbm_step_update_witness :
    0 < 1 ∧ 0 < 1 ∧
      ((simulated_paths 100 0.05 0.2 1 1 1 fun _ => 0).getD 0 []).getD (0 + 1) 0
        = ((simulated_paths 100 0.05 0.2 1 1 1 fun _ => 0).getD 0 []).getD 0 0 *
            Real.exp ((0.05 - 0.5 * 0.2 ^ 2) * ((1 : ℝ) / ((1 : ℕ) : ℝ))
              + 0.2 * Real.sqrt ((1 : ℝ) / ((1 : ℕ) : ℝ)) * 0) :=
  ⟨Nat.one_pos, Nat.one_pos,
    gbm_step_update 100 0.05 0.2 1 1 1 (fun _ => 0) 0 0 Nat.one_pos Nat.one_pos⟩

/-- C8: for valid parameters and every outcome of the draws, both Monte
Carlo prices are non-negative: each payoff sample is a max with 0, and the
discount factor exp(-r*T) is positive. -/
theorem mc_prices_nonneg (S0 K T r sigma : ℝ) (time_steps num_simulations : ℕ)
    (Z : ℕ → ℝ) (hS0 : 0 < S0) (hK : 0 < K) (hT : 0 < T) (hsigma : 0 < sigma)
    (hts : 1 ≤ time_steps) (hN : 1 ≤ num_simulations) :
    0 ≤ mc_call_price S0 K T r sigma time_steps num_simulations Z ∧
    0 ≤ mc_put_price S0 K T r sigma time_steps num_simulations Z := by
  constructor
  · apply mul_nonneg (Real.exp_pos _).le
    apply npMean_nonneg
    intro x hx
    unfold call_payoffs at hx
    rw [List.mem_map] at hx
    obtain ⟨i, hi, rfl⟩ := hx
    exact le_max_right _ _
  · apply mul_nonneg (Real.exp_pos _).le
    apply npMean_nonneg
    intro x hx
    unfold put_payoffs at hx
    rw [List.mem_map] at hx
    obtain ⟨i, hi, rfl⟩ := hx
    exact le_max_right _ _

/-- Witness for C8 at S0=100, K=105, T=1, r=0.05, sigma=0.2, one step, one
trial, all draws zero. -/
theorem mc_prices_nonneg_witness :
    0 < (100 : ℝ) ∧ 0 < (105 : ℝ) ∧ 0 < (1 : ℝ) ∧ 0 < (0.2 : ℝ) ∧
      (0 ≤ mc_call_price 100 105 1 0.05 0.2 1 1 fun _ => 0) ∧
      (0 ≤ mc_put_price 100 105 1 0.05 0.2 1 1 fun _ => 0) :=
  ⟨by norm_num, by norm_num, by norm_num, by norm_num,
    (mc_prices_nonneg 100 105 1 0.05 0.2 1 1 (fun _ => 0)
      (by norm_num) (by norm_num) (by norm_num) (by norm_num)
      (le_refl 1) (le_refl 1)).1,
    (mc_prices_nonneg 100 105 1 0.05 0.2 1 1 (fun _ => 0)
      (by norm_num) (by norm_num) (by norm_num) (by norm_num)
      (le_refl 1) (le_refl 1)).2⟩

/-- C9: the computation is deterministic modulo the random source — two
runs that agree on every draw the simulation consumes (indices below
time_steps * num_simulations) produce identical paths, identical payoff
lists and identical Monte Carlo prices. -/
theorem price_deterministic_given_draws (S0 K T r sigma : ℝ)
    (time_steps num_simulations : ℕ) (Z1 Z2 : ℕ → ℝ)
    (h : ∀ k < time_steps * num_simulations, Z1 k = Z2 k) :
    simulated_paths S0 r sigma T time_steps num_simulations Z1
      = simulated_paths S0 r sigma T time_steps num_simulations Z2 ∧
    call_payoffs S0 K T r sigma time_steps num_simulations Z1
      = call_payoffs S0 K T r sigma time_steps num_simulations Z2 ∧
    put_payoffs S0 K T r sigma time_steps num_simulations Z1
      = put_payoffs S0 K T r sigma time_steps num_simulations Z2 ∧
    mc_call_price S0 K T r sigma time_steps num_simulations Z1
      = mc_call_price S0 K T r sigma time_steps num_simulations Z2 ∧
    mc_put_price S0 K T r sigma time_steps num_simulations Z1
      = mc_put_price S0 K T r sigma time_steps num_simulations Z2 := by
  have hdraws : ∀ i < num_simulations,
      trialDraws Z1 time_steps i = trialDraws Z2 time_steps i := by
    intro i hi
    unfold trialDraws
    apply List.map_congr_left
    intro j hj
    rw [List.mem_range] at hj
    apply h
    calc time_steps * i + j < time_steps * i + time_steps := by omega
      _ = time_steps * (i + 1) := by ring
      _ ≤ time_steps * num_simulations := Nat.mul_le_mul_left _ hi
  have hpaths : simulated_paths S0 r sigma T time_steps num_simulations Z1
      = simulated_paths S0 r sigma T time_steps num_simulations Z2 := by
    unfold simulated_paths
    apply List.map_congr_left
    intro i hi
    rw [hdraws i (List.mem_range.mp hi)]
  have hcall : call_payoffs S0 K T r sigma time_steps num_simulations Z1
      = call_payoffs S0 K T r sigma time_steps num_simulations Z2 := by
    unfold call_payoffs
    apply List.map_congr_left
    intro i hi
    rw [hdraws i (List.mem_range.mp hi)]
  have hput : put_payoffs S0 K T r sigma time_steps num_simulations Z1
      = put_payoffs S0 K T r sigma time_steps num_simulations Z2 := by
    unfold put_payoffs
    apply List.map_congr_left
    intro i hi
    rw [hdraws i (List.mem_range.mp hi)]
  exact ⟨hpaths, hcall, hput,
    by unfold mc_call_price; rw [hcall],
    by unfold mc_put_price; rw [hput]⟩

/-- Witness for C9: one trial, one step; the two draw streams agree on the
single consumed index 0 and differ everywhere else. -/
theorem price_deterministic_given_draws_witness :
    (∀ k < 1 * 1, (fun _ : ℕ => (0 : ℝ)) k = (fun j : ℕ => if j = 0 then 0 else 37) k) ∧
      (simulated_paths 100 0.05 0.2 1 1 1 (fun _ => 0)
          = simulated_paths 100 0.05 0.2 1 1 1 (fun j => if j = 0 then 0 else 37) ∧
        call_payoffs 100 105 1 0.05 0.2 1 1 (fun _ => 0)
          = call_payoffs 100 105 1 0.05 0.2 1 1 (fun j => if j = 0 then 0 else 37) ∧
        put_payoffs 100 105 1 0.05 0.2 1 1 (fun _ => 0)
          = put_payoffs 100 105 1 0.05 0.2 1 1 (fun j => if j = 0 then 0 else 37) ∧
        mc_call_price 100 105 1 0.05 0.2 1 1 (fun _ => 0)
          = mc_call_price 100 105 1 0.05 0.2 1 1 (fun j => if j = 0 then 0 else 37) ∧
        mc_put_price 100 105 1 0.05 0.2 1 1 (fun _ => 0)
          = mc_put_price 100 105 1 0.05 0.2 1 1 (fun j => if j = 0 then 0 else 37)) :=
  ⟨fun k hk => by
      have hk0 : k = 0 := by omega
      subst hk0
      norm_num,
    price_deterministic_given_draws 100 105 1 0.05 0.2 1 1
      (fun _ => 0) (fun j => if j = 0 then 0 else 37)
      (fun k hk => by
        have hk0 : k = 0 := by omega
        subst hk0
        norm_num)⟩

/-- C10: Monte Carlo put-call parity — for at least one path and any
outcome of the draws, `mc_call_price - mc_put_price` equals exactly
`exp(-r*T) * (mean of the paths' terminal prices - K)`, since for each path
`max(S_T - K, 0) - max(K - S_T, 0) = S_T - K`. -/
theorem mc_put_call_parity (S0 K T r sigma : ℝ) (time_steps num_simulations : ℕ)
    (Z : ℕ → ℝ) (hN : 1 ≤ num_simulations) :
    mc_call_price S0 K T r sigma time_steps num_simulations Z
      - mc_put_price S0 K T r sigma time_steps num_simulations Z
      = Real.exp (-r * T) *
          (npMean ((simulated_paths S0 r sigma T time_steps num_simulations Z).map
            fun p => p.getLastD 0) - K) := by
  have hterm : (simulated_paths S0 r sigma T time_steps num_simulations Z).map
        (fun p => p.getLastD 0)
      = (List.range num_simulations).map
          fun i => terminalS r sigma (T / time_steps) S0 (trialDraws Z time_steps i) := by
    unfold simulated_paths
    rw [List.map_map]
    apply List.map_congr_left
    intro i hi
    simp only [Function.comp_apply]
    rw [simPath_getLastD]
  have hsum : (call_payoffs S0 K T r sigma time_steps num_simulations Z).sum
        - (put_payoffs S0 K T r sigma time_steps num_simulations Z).sum
      = ((List.range num_simulations).map
          fun i => terminalS r sigma (T / time_steps) S0 (trialDraws Z time_steps i)).sum
        - num_simulations * K := by
    unfold call_payoffs put_payoffs
    rw [← list_sum_map_sub]
    have heq : ((List.range num_simulations).map fun i =>
          max (terminalS r sigma (T / time_steps) S0 (trialDraws Z time_steps i) - K) 0
            - max (K - terminalS r sigma (T / time_steps) S0 (trialDraws Z time_steps i)) 0)
        = (List.range num_simulations).map fun i =>
            terminalS r sigma (T / time_steps) S0 (trialDraws Z time_steps i) - K := by
      apply List.map_congr_left
      intro i hi
      exact max_sub_max_eq _ _
    rw [heq, list_sum_map_sub, list_sum_map_const, List.length_range]
  have hNn : ((num_simulations : ℕ) : ℝ) ≠ 0 := Nat.cast_ne_zero.mpr (by omega)
  rw [hterm]
  unfold mc_call_price mc_put_price npMean
  have hlenC : ((call_payoffs S0 K T r sigma time_steps num_simulations Z).length : ℝ)
      = (num_simulations : ℝ) := by unfold call_payoffs; simp
  have hlenP : ((put_payoffs S0 K T r sigma time_steps num_simulations Z).length : ℝ)
      = (num_simulations : ℝ) := by unfold put_payoffs; simp
  rw [hlenC, hlenP, List.length_map, List.length_range, ← mul_sub, div_sub_div_same, hsum,
    sub_div, mul_div_cancel_left₀ K hNn]

/-- Witness for C10 at S0=100, K=105, T=1, r=0.05, sigma=0.2, one step, one
trial, all draws zero. -/
theorem mc_put_call_parity_witness :
    1 ≤ 1 ∧
      mc_call_price 100 105 1 0.05 0.2 1 1 (fun _ => 0)
          - mc_put_price 100 105 1 0.05 0.2 1 1 (fun _ => 0)
        = Real.exp (-0.05 * 1) *
            (npMean ((simulated_paths 100 0.05 0.2 1 1 1 fun _ => 0).map
              fun p => p.getLastD 0) - 105) :=
  ⟨le_refl 1,
    mc_put_call_parity 100 105 1 0.05 0.2 1 1 (fun _ => 0) (le_refl 1)⟩

/-- Counterexample to C6: with the malformed parameter S0 = -10 (all other
parameters valid: K=105, T=1, r=0.05, sigma=0.2, 100 steps, 1000 trials)
the script does not raise any failure — it runs the full simulation and
produces all 1000 paths, contradicting "no partial results (paths or
prices) are produced". -/
theorem no_validation_counterexample :
    ((runScript (-10) 105 1 0.05 0.2 100 1000 fun _ => 0).map fun out => out.1.length)
      = some 1000 := by
  unfold runScript simulationStage blackScholesStage
  rw [if_neg (by omega : ¬ (100 : ℕ) = 0), if_neg (by norm_num : ¬ (105 : ℝ) = 0)]
  simp [simulated_paths]

/-- C6 amended: the script performs no validation of its parameters at all
and has no InvalidParameters failure.  For malformed numeric parameters
such as S0 ≤ 0 (with time_steps ≥ 1): if K ≠ 0 the whole run completes,
consuming draws and producing all num_simulations paths and both price
pairs; if K = 0 the run does abort with a ZeroDivisionError — at
np.log(S0/K) inside the Black-Scholes evaluation (line 57 reaching line
43), not as a validation failure — but only after the full simulation has
run and consumed all its draws, so partial results are produced rather
than none.  (time_steps = 0 likewise aborts, at line 15; see C7.) -/
theorem no_validation_amended (S0 K T r sigma : ℝ) (time_steps num_simulations : ℕ)
    (Z : ℕ → ℝ) (hS0 : S0 ≤ 0) (hts : 1 ≤ time_steps) :
    (K ≠ 0 →
      ((runScript S0 K T r sigma time_steps num_simulations Z).map fun out => out.1.length)
        = some num_simulations) ∧
    (K = 0 →
      runScript S0 K T r sigma time_steps num_simulations Z = none ∧
      ((simulationStage S0 K T r sigma time_steps num_simulations Z).map
          fun sim => sim.1.length)
        = some num_simulations) := by
  constructor
  · intro hK
    unfold runScript simulationStage blackScholesStage
    rw [if_neg (by omega : ¬ time_steps = 0), if_neg hK]
    simp [simulated_paths]
  · intro hK
    constructor
    · unfold runScript simulationStage blackScholesStage
      rw [if_neg (by omega : ¬ time_steps = 0), if_pos hK]
      simp
    · unfold simulationStage
      rw [if_neg (by omega : ¬ time_steps = 0)]
      simp [simulated_paths]

/-- Witness for the amended C6 at S0 = -10 with otherwise valid
parameters. -/
theorem no_validation_amended_witness :
    (-10 : ℝ) ≤ 0 ∧ 1 ≤ 100 ∧
      (((105 : ℝ) ≠ 0 →
          ((runScript (-10) 105 1 0.05 0.2 100 1000 fun _ => 0).map fun out => out.1.length)
            = some 1000) ∧
        ((105 : ℝ) = 0 →
          runScript (-10) 105 1 0.05 0.2 100 1000 (fun _ => 0) = none ∧
          ((simulationStage (-10) 105 1 0.05 0.2 100 1000 fun _ => 0).map
              fun sim => sim.1.length)
            = some 1000)) :=
  ⟨by norm_num, by norm_num,
    no_validation_amended (-10) 105 1 0.05 0.2 100 1000 (fun _ => 0)
      (by norm_num) (by norm_num)⟩

/-- Counterexample to C7: with time_steps = 0 and otherwise valid
parameters (S0=100, K=105, T=1, r=0.05, sigma=0.2, 1000 trials) the script
fails — Python raises ZeroDivisionError at `dt = T/time_steps` (line 15) —
instead of producing the degenerate single-point paths `[S0]` the claim
describes. -/
theorem zero_time_steps_counterexample :
    runScript 100 105 1 0.05 0.2 0 1000 (fun _ => 0) = none := by
  unfold runScript simulationStage
  rw [if_pos rfl]
  rfl

/-- C7 amended: with time_steps = 0 the script errors before any
simulation: the very first statement `dt = T/time_steps` divides by zero
and raises ZeroDivisionError, so no paths (degenerate or otherwise) and no
prices are produced, for every choice of the remaining parameters. -/
theorem zero_time_steps_amended (S0 K T r sigma : ℝ) (num_simulations : ℕ)
    (Z : ℕ → ℝ) :
    runScript S0 K T r sigma 0 num_simulations Z = none := by
  unfold runScript simulationStage
  rw [if_pos rfl]
  rfl
